import Mathlib

/-!
Verification of the photo-upload progress coordinator
(`src/be/apps/dashboard/src/modules/photos/components/library/photo-upload/store.tsx`).

The state record of the store, its event reducer (`handleProcessingEvent`), the
upload-progress aggregator (`handleUploadProgress`) and the exposed operations
(`removeEntry`, `beginUpload`, `abortCurrent`, `reset`, `setSelectedTags`)
are embedded shallowly as pure state-transition functions.

The helper module `./utils` (`createFileEntries`, `calculateTotalSize`,
`calculateUploadedBytes`, `collectUnmatchedMovFiles`,
`createStageStateFromTotals`, `normalizeStageCount`) is not part of the
sources at hand; those helpers are modelled from the specification text and
each carries a doc comment saying so.

Machine conventions: byte counts are `Nat`; progress fractions are `ℚ`;
a server-reported counter that may be malformed (NaN / negative /
non-numeric) is an `Option Int` where `none` stands for a non-numeric or
non-finite JavaScript value; timestamps are `Int` milliseconds, with the
result of `Date.parse` modelled as `Option Int` (`none` = NaN) and the
`Date.now()` fallback passed in explicitly.  The module-global
`processingLogSequence` counter is threaded through the state as `logSeq`.
-/

namespace Afilmory

/-- Status of one per-file progress entry (the `status` field of `FileProgressEntry`). -/
inductive EntryStatus
  | pending
  | uploading
  | processing
  | done
  | error
deriving DecidableEq, Repr

/-- Coarse workflow phase (`WorkflowPhase`). -/
inductive Phase
  | review
  | uploading
  | processing
  | completed
  | error
deriving DecidableEq, Repr

/-- Status of one named processing stage. -/
inductive StageStatus
  | running
  | completed
deriving DecidableEq, Repr

/-- Modelled from the spec: a file name is matched by base name and a
reserved companion-video extension, so it is represented as a base plus an
extension rather than a raw string (the raw-string splitting helper is in
the missing `./utils` module). -/
structure FileName where
  base : String
  ext : String
deriving DecidableEq, Repr

/-- A selected file: name and size in bytes. -/
structure FFile where
  name : FileName
  size : Nat
deriving DecidableEq, Repr

/-- One per-file progress record (`FileProgressEntry`). -/
structure FileProgressEntry where
  index : Nat
  name : FileName
  size : Nat
  status : EntryStatus
  progress : ℚ
  uploadedBytes : Nat
deriving DecidableEq, Repr

/-- Per-stage counters held in `ProcessingState.stages`. -/
structure StageState where
  status : StageStatus
  processed : Nat
  total : Nat
deriving DecidableEq, Repr

/-- The `latestLog` snapshot kept beside the full log list. -/
structure LatestLog where
  message : String
  level : String
  timestamp : Int
deriving DecidableEq, Repr

/-- One bounded log entry (`ProcessingLogEntry`). -/
structure ProcessingLogEntry where
  id : String
  message : String
  level : String
  timestamp : Int
deriving DecidableEq, Repr

/-- Server-side processing state (`ProcessingState`), present only after a
`start` event has been received. -/
structure ProcessingState where
  dryRun : Bool
  summary : String
  totals : List (String × Nat)
  stages : List (String × StageState)
  completed : Bool
  error : Option String
  latestLog : Option LatestLog
deriving DecidableEq, Repr

/-- The whole store state (`PhotoUploadStoreState`), data fields only; the
module-global `processingLogSequence` is threaded through as `logSeq`. -/
structure StoreState where
  files : List FFile
  totalSize : Nat
  uploadedBytes : Nat
  availableTags : List String
  selectedTags : List String
  unmatchedMovFiles : List FFile
  hasMovFile : Bool
  phase : Phase
  uploadEntries : List FileProgressEntry
  uploadError : Option String
  processingError : Option String
  processingState : Option ProcessingState
  processingLogs : List ProcessingLogEntry
  logSeq : Nat
deriving DecidableEq, Repr

/-- Payload of a `start` event: `{summary, totals, options?}` where
`options?.dryRun ?? false` is read. -/
structure StartPayload where
  summary : String
  totals : List (String × Nat)
  dryRun : Option Bool
deriving DecidableEq, Repr

/-- Payload of a `log` event; `timestamp` is the result of
`Date.parse(event.payload.timestamp)` with `none` for NaN. -/
structure LogPayload where
  message : String
  level : String
  timestamp : Option Int
deriving DecidableEq, Repr

/-- Payload of a `stage` event; `processed` and `total` may be malformed
server values (`none` = non-numeric / non-finite). -/
structure StagePayload where
  stage : String
  status : String
  processed : Option Int
  total : Option Int
  summary : String
deriving DecidableEq, Repr

/-- Payload of an `action` event; `index` plays the role of the processed
counter. -/
structure ActionPayload where
  stage : String
  index : Option Int
  total : Option Int
  summary : String
deriving DecidableEq, Repr

/-- The discriminated server event stream (`PhotoSyncProgressEvent`).  The
`log` constructor carries the `Date.now()` fallback value used when the
payload timestamp is unparsable. -/
inductive Event
  | start (p : StartPayload)
  | log (p : LogPayload) (now : Int)
  | stage (p : StagePayload)
  | action (p : ActionPayload)
  | error (message : String)
  | complete (summary : String)
deriving DecidableEq, Repr

/-- The slice of an upload-progress snapshot for one file
(`{ index, progress, uploadedBytes }`). -/
structure FileProgress where
  index : Nat
  progress : ℚ
  uploadedBytes : Nat
deriving DecidableEq, Repr

/-- The constant `MAX_PROCESSING_LOGS` from the store module. -/
def MAX_PROCESSING_LOGS : Nat := 200

/-- The JavaScript call slice(-n) on an array: the last `min n xs.length` elements. -/
def sliceLast (n : Nat) (xs : List α) : List α :=
  xs.drop (xs.length - n)

/-- Modelled from the spec: `calculateUploadedBytes` — the aggregate
`uploadedBytes` is the sum over all entries, recomputed each time. -/
def calculateUploadedBytes (entries : List FileProgressEntry) : Nat :=
  (entries.map (·.uploadedBytes)).sum

/-- The `computeUploadedBytes` wrapper from the store module. -/
def computeUploadedBytes (entries : List FileProgressEntry) : Nat :=
  calculateUploadedBytes entries

/-- Modelled from the spec: `calculateTotalSize` — sum of the file sizes. -/
def calculateTotalSize (files : List FFile) : Nat :=
  (files.map (·.size)).sum

/-- Modelled from the spec: `createFileEntries` — one entry per file in
input order, all `status = pending`, `progress = 0` (hence
`uploadedBytes = 0`), `index` the position in the file list. -/
def createFileEntries (files : List FFile) : List FileProgressEntry :=
  files.enum.map fun p =>
    { index := p.1, name := p.2.name, size := p.2.size,
      status := .pending, progress := 0, uploadedBytes := 0 }

/-- The reserved companion-video extension check (a `.mov` live-photo
companion). -/
def isMovFile (f : FFile) : Bool :=
  f.name.ext = "mov"

/-- Modelled from the spec: `collectUnmatchedMovFiles` — scans the
selection for files with the reserved video extension, matches each against
an image (non-video) of the same base name in the same set, and returns the
unmatched subset together with a flag saying whether any video companion is
present at all. -/
def collectUnmatchedMovFiles (files : List FFile) : List FFile × Bool :=
  let movs := files.filter isMovFile
  let unmatched := movs.filter fun m =>
    ¬ files.any fun g => ¬ isMovFile g ∧ g.name.base = m.name.base
  (unmatched, !movs.isEmpty)

/-- Modelled from the spec: `normalizeStageCount` — reconcile a newly
reported counter with the last accepted value: the larger of the reported
value when it is a non-negative finite integer and the previous value;
just the previous value when the report is malformed. -/
def normalizeStageCount (reported : Option Int) (previous : Nat) : Nat :=
  match reported with
  | some n => if 0 ≤ n then max n.toNat previous else previous
  | none => previous

/-- Modelled from the spec: `createStageStateFromTotals` — initialise the
per-stage counters from the payload totals, `processed = 0`, with a stage of
total 0 immediately `completed` (the data-model invariant forces this) and
`running` otherwise. -/
def createStageStateFromTotals (totals : List (String × Nat)) :
    List (String × StageState) :=
  totals.map fun p =>
    (p.1, { status := if p.2 = 0 then .completed else .running,
            processed := 0, total := p.2 })

/-- JavaScript object lookup `stages[stage]` on the stages record. -/
def getStage (stages : List (String × StageState)) (k : String) :
    Option StageState :=
  (stages.find? fun p => p.1 = k).map (·.2)

/-- JavaScript object spread `{...stages, [k]: v}`: replace the binding for
`k` when present, append it otherwise. -/
def setStage (stages : List (String × StageState)) (k : String)
    (v : StageState) : List (String × StageState) :=
  if stages.any fun p => p.1 = k then
    stages.map fun p => if p.1 = k then (k, v) else p
  else
    stages ++ [(k, v)]

/-- The helper `updateEntries` from the store module: replace the entry list and
recompute the aggregate `uploadedBytes` from it. -/
def updateEntries (f : List FileProgressEntry → List FileProgressEntry)
    (s : StoreState) : StoreState :=
  let nextEntries := f s.uploadEntries
  { s with uploadEntries := nextEntries,
           uploadedBytes := computeUploadedBytes nextEntries }

/-- Build one `ProcessingLogEntry` as the `log` branch does: monotonic
sequence id, timestamp from the payload with a local-clock fallback. -/
def mkLogEntry (seq : Nat) (p : LogPayload) (now : Int) : ProcessingLogEntry :=
  { id := "log-" ++ toString seq, message := p.message, level := p.level,
    timestamp := p.timestamp.getD now }

/-- The event reducer `handleProcessingEvent`, translated branch for branch
from the store module. -/
def handleProcessingEvent (event : Event) (s : StoreState) : StoreState :=
  match event with
  | .start p =>
      let s := updateEntries (fun entries => entries.map fun e =>
        { e with status := if e.status = .uploading then .processing else e.status }) s
      { s with
        phase := .processing,
        processingError := none,
        processingState := some
          { dryRun := p.dryRun.getD false,
            summary := p.summary,
            totals := p.totals,
            stages := createStageStateFromTotals p.totals,
            completed := false,
            error := none,
            latestLog := none },
        processingLogs := [] }
  | .log p now =>
      let logEntry := mkLogEntry s.logSeq p now
      { s with
        logSeq := s.logSeq + 1,
        processingState := s.processingState.map fun ps =>
          { ps with latestLog := some ⟨logEntry.message, logEntry.level, logEntry.timestamp⟩ },
        processingLogs :=
          sliceLast MAX_PROCESSING_LOGS (s.processingLogs ++ [logEntry]) }
  | _ =>
    match s.processingState with
    | none =>
        match event with
        | .error msg => { s with phase := .error, processingError := some msg }
        | _ => s
    | some prev =>
        match event with
        | .stage p =>
            let prevStage := getStage prev.stages p.stage
            let normalizedTotal :=
              normalizeStageCount p.total ((prevStage.map (·.total)).getD 0)
            let normalizedProcessed :=
              normalizeStageCount p.processed ((prevStage.map (·.processed)).getD 0)
            let newStage : StageState :=
              { status :=
                  if p.status = "complete" ∨ normalizedTotal = 0 then
                    .completed
                  else .running,
                processed := min normalizedProcessed normalizedTotal,
                total := normalizedTotal }
            let newPs : ProcessingState :=
              { prev with
                summary := p.summary,
                stages := setStage prev.stages p.stage newStage }
            { s with processingState := some newPs }
        | .action p =>
            let prevStage := getStage prev.stages p.stage
            let normalizedTotal :=
              normalizeStageCount p.total ((prevStage.map (·.total)).getD 0)
            let normalizedProcessed :=
              normalizeStageCount p.index ((prevStage.map (·.processed)).getD 0)
            let newStage : StageState :=
              { status := if normalizedTotal = 0 then .completed else .running,
                processed := min normalizedProcessed normalizedTotal,
                total := normalizedTotal }
            let newPs : ProcessingState :=
              { prev with
                summary := p.summary,
                stages := setStage prev.stages p.stage newStage }
            { s with processingState := some newPs }
        | .error msg =>
            let s := updateEntries (fun entries => entries.map fun e =>
              { e with status :=
                  if e.status = .processing then .error else e.status }) s
            { s with
              phase := .error,
              processingError := some msg,
              processingState := some { prev with error := some msg } }
        | .complete summary =>
            let s := updateEntries (fun entries => entries.map fun e =>
              { e with
                status := if e.status = .processing then .done else e.status,
                progress := 1,
                uploadedBytes := e.size }) s
            let newPs : ProcessingState :=
              { prev with summary := summary, completed := true }
            { s with phase := .completed, processingState := some newPs }
        | _ => s

/-- Lookup in the JavaScript Map built from the snapshot files keyed by index: the last
snapshot entry with the given index wins. -/
def mapGet (snapshot : List FileProgress) (i : Nat) : Option FileProgress :=
  snapshot.foldl (fun acc f => if f.index = i then some f else acc) none

/-- The upload-progress aggregator `handleUploadProgress`. -/
def handleUploadProgress (snapshot : List FileProgress) (s : StoreState) :
    StoreState :=
  updateEntries (fun entries => entries.map fun entry =>
    match mapGet snapshot entry.index with
    | none => entry
    | some current =>
        { entry with
          status := if entry.status = .pending then .uploading else entry.status,
          progress := current.progress,
          uploadedBytes := current.uploadedBytes }) s

/-- The initial store state built by `createPhotoUploadStore`. -/
def createPhotoUploadStore (files : List FFile) (availableTags : List String) :
    StoreState :=
  let initialEntries := createFileEntries files
  let um := collectUnmatchedMovFiles files
  { files := files,
    totalSize := calculateTotalSize files,
    uploadedBytes := 0,
    availableTags := availableTags,
    selectedTags := [],
    unmatchedMovFiles := um.1,
    hasMovFile := um.2,
    phase := .review,
    uploadEntries := initialEntries,
    uploadError := none,
    processingError := none,
    processingState := none,
    processingLogs := [],
    logSeq := 0 }

/-- The `removeEntry` operation, applied at the given entry index. -/
def removeEntry (idx : Nat) (s : StoreState) : StoreState :=
  if s.phase ≠ .review then s
  else
    let nextFiles := (s.files.enum.filter fun p => p.1 ≠ idx).map (·.2)
    if nextFiles.length = s.files.length then s
    else
      let nextEntries := createFileEntries nextFiles
      let um := collectUnmatchedMovFiles nextFiles
      { s with
        files := nextFiles,
        totalSize := calculateTotalSize nextFiles,
        unmatchedMovFiles := um.1,
        hasMovFile := um.2,
        uploadEntries := nextEntries,
        uploadedBytes := computeUploadedBytes nextEntries }

/-- The synchronous prefix of `beginUpload`: the guard, the phase switch to
`uploading` and the promotion of every entry to `uploading`, up to the point
where the external transport is awaited. -/
def beginUploadStart (s : StoreState) : StoreState :=
  if s.unmatchedMovFiles.length > 0 ∨ s.phase = .uploading ∨
      s.phase = .processing then s
  else if s.files.length = 0 then s
  else
    let s := { s with
      uploadError := none,
      processingError := none,
      processingState := none,
      phase := .uploading,
      processingLogs := [] }
    updateEntries (fun entries => entries.map fun e =>
      { e with status := .uploading }) s

/-- The `catch` branch of `beginUpload` for an `AbortError` rejection:
revert to `review` and rederive the entries from the current files. -/
def uploadAborted (s : StoreState) : StoreState :=
  let s := { s with phase := .review }
  updateEntries (fun _ => createFileEntries s.files) s

/-- The `catch` branch of `beginUpload` for any other rejection: record the
message, move to `error`, and mark `uploading` entries as `error`. -/
def uploadFailed (msg : String) (s : StoreState) : StoreState :=
  let s := { s with uploadError := some msg, phase := .error }
  updateEntries (fun entries => entries.map fun e =>
    { e with status := if e.status = .uploading then .error else e.status }) s

/-- The `abortCurrent` operation. -/
def abortCurrent (s : StoreState) : StoreState :=
  if s.phase = .uploading then
    let s := { s with phase := .review }
    updateEntries (fun _ => createFileEntries s.files) s
  else if s.phase = .processing then
    let s := { s with processingError := some ("服务器处理已终止"), phase := .error }
    updateEntries (fun entries => entries.map fun e =>
      { e with status := if e.status = .processing then .error else e.status }) s
  else s

/-- The `reset` operation. -/
def reset (s : StoreState) : StoreState :=
  let s := { s with
    phase := .review,
    uploadError := none,
    processingError := none,
    processingState := none,
    processingLogs := [] }
  updateEntries (fun _ => createFileEntries s.files) s

/-- The `setSelectedTags` operation (no phase guard in the source). -/
def setSelectedTags (tags : List String) (s : StoreState) : StoreState :=
  { s with selectedTags := tags }

/-- Every state-mutating entry point of the store, as one action type:
server events, upload-progress snapshots, and the exposed operations
(including the two `catch` continuations of `beginUpload`). -/
inductive Action
  | serverEvent (e : Event)
  | uploadProgress (snapshot : List FileProgress)
  | removeEntry (idx : Nat)
  | beginUploadStart
  | uploadAborted
  | uploadFailed (msg : String)
  | abortCurrent
  | reset
  | setSelectedTags (tags : List String)
deriving Repr

/-- Apply one action to the store state. -/
def applyAction : Action → StoreState → StoreState
  | .serverEvent e, s => handleProcessingEvent e s
  | .uploadProgress snap, s => handleUploadProgress snap s
  | .removeEntry i, s => removeEntry i s
  | .beginUploadStart, s => beginUploadStart s
  | .uploadAborted, s => uploadAborted s
  | .uploadFailed m, s => uploadFailed m s
  | .abortCurrent, s => abortCurrent s
  | .reset, s => reset s
  | .setSelectedTags t, s => setSelectedTags t s

/-- Apply a sequence of actions in order. -/
def applyActions (acts : List Action) (s : StoreState) : StoreState :=
  acts.foldl (fun st a => applyAction a st) s

/-- Fold a list of `log` events (payload together with the `Date.now()`
fallback for that delivery) into the state, in arrival order. -/
def foldLogs (L : List (LogPayload × Int)) (s : StoreState) : StoreState :=
  L.foldl (fun st pr => handleProcessingEvent (.log pr.1 pr.2) st) s

/-- The log entries a sequence of `log` events generates, in arrival order,
starting from sequence number `seq`. -/
def generatedLogs (seq : Nat) : List (LogPayload × Int) → List ProcessingLogEntry
  | [] => []
  | pr :: rest => mkLogEntry seq pr.1 pr.2 :: generatedLogs (seq + 1) rest

/-- The aggregate-bytes invariant: the aggregate `uploadedBytes` equals the
sum of `uploadedBytes` over all entries. -/
def invBytes (s : StoreState) : Prop :=
  s.uploadedBytes = (s.uploadEntries.map (·.uploadedBytes)).sum

/-- Example selection: three images of sizes 10, 20 and 30 bytes. -/
def exFiles : List FFile :=
  [⟨⟨"a", "jpg"⟩, 10⟩, ⟨⟨"b", "jpg"⟩, 20⟩, ⟨⟨"c", "jpg"⟩, 30⟩]

/-- Example store as created over `exFiles` (phase `review`). -/
def exReview : StoreState := createPhotoUploadStore exFiles []

/-- Example store after the synchronous part of `beginUpload` (phase
`uploading`). -/
def exUploading : StoreState := beginUploadStart exReview

/-- Example store after one progress snapshot and the `start` event
(phase `processing`). -/
def exProcessing : StoreState :=
  handleProcessingEvent (.start ⟨"sync", [("metadata", 3)], none⟩)
    (handleUploadProgress [⟨0, 1, 10⟩] exUploading)

/-- Example store after the `complete` event of the server (phase `completed`). -/
def exCompleted : StoreState := handleProcessingEvent (.complete ("done")) exProcessing

/-- Example store after a server `error` event during processing (phase
`error`). -/
def exErrored : StoreState := handleProcessingEvent (.error ("boom")) exProcessing

/-- The processing-state record held by `exProcessing`. -/
def exProcessingPs : ProcessingState :=
  { dryRun := false, summary := "sync", totals := [("metadata", 3)],
    stages := [("metadata", ⟨.running, 0, 3⟩)], completed := false,
    error := none, latestLog := none }

/-- The processing-state record held by `exErrored`. -/
def exErroredPs : ProcessingState :=
  { exProcessingPs with error := some ("boom") }

/-!  Helper lemmas about `sliceLast` (i.e. `Array.prototype.slice(-n)`) and
the stages record. -/

theorem sliceLast_reverse (n : Nat) (xs : List α) :
    (sliceLast n xs).reverse = xs.reverse.take n := by
  rw [sliceLast, List.reverse_drop, List.take_eq_take]
  simp
  omega

theorem sliceLast_eq_reverse_take (n : Nat) (xs : List α) :
    sliceLast n xs = (xs.reverse.take n).reverse := by
  rw [← sliceLast_reverse, List.reverse_reverse]

theorem take_append_take (n : Nat) (a b : List α) :
    (a ++ b.take n).take n = (a ++ b).take n := by
  rw [List.take_append_eq_append_take, List.take_append_eq_append_take,
    List.take_take]
  congr 1
  rw [List.take_eq_take]
  omega

theorem sliceLast_append_left (n : Nat) (xs l : List α) :
    sliceLast n (sliceLast n xs ++ l) = sliceLast n (xs ++ l) := by
  rw [sliceLast_eq_reverse_take, sliceLast_eq_reverse_take n (xs ++ l),
    List.reverse_append, List.reverse_append, sliceLast_reverse,
    take_append_take]

theorem length_sliceLast (n : Nat) (xs : List α) :
    (sliceLast n xs).length = min n xs.length := by
  rw [sliceLast, List.length_drop]
  omega

theorem sliceLast_of_le (n : Nat) (xs : List α) (h : xs.length ≤ n) :
    sliceLast n xs = xs := by
  rw [sliceLast]
  have hz : xs.length - n = 0 := by omega
  rw [hz, List.drop_zero]

theorem find?_map_replace (st : List (String × StageState)) (k : String)
    (v : StageState) :
    (st.map fun p => if p.1 = k then (k, v) else p).find?
        (fun p => decide (p.1 = k)) =
      if st.any (fun p => decide (p.1 = k)) then some (k, v) else none := by
  induction st with
  | nil => simp
  | cons hd tl ih =>
    by_cases hh : hd.1 = k
    · simp [hh, List.find?_cons_of_pos]
    · simp only [List.map_cons, List.any_cons]
      rw [List.find?_cons_of_neg, ih]
      · by_cases hht : (tl.any fun p => decide (p.1 = k)) = true
        · rw [if_pos hht, if_pos (by simp [hht])]
        · rw [if_neg hht, if_neg ?hc]
          case hc =>
            simp only [Bool.or_eq_true, decide_eq_true_eq]
            rintro (hc | hc)
            exacts [hh hc, hht hc]
      · simp only [if_neg hh]
        simpa using hh

theorem getStage_setStage (st : List (String × StageState)) (k : String)
    (v : StageState) :
    getStage (setStage st k v) k = some v := by
  unfold getStage setStage
  by_cases h : st.any (fun p => decide (p.1 = k)) = true
  · rw [if_pos h, find?_map_replace, if_pos h]
    simp
  · rw [if_neg h]
    have hfind : st.find? (fun p => decide (p.1 = k)) = none := by
      rw [List.find?_eq_none]
      intro p hp hdec
      exact h (List.any_eq_true.mpr ⟨p, hp, hdec⟩)
    rw [List.find?_append, hfind]
    simp

/-- C1 (counterexample): in the freshly created store `processingState` is
null, yet applying a `log` event does change the state — the claim that a
`log` event is a whole-state no-op before `start` is false. -/
theorem c1_log_before_start_counterexample :
    exReview.processingState = none ∧
    handleProcessingEvent (.log ⟨"m", "info", some 3⟩ 0) exReview ≠ exReview := by
  decide

/-- C1 (amended): when `processingState` is null, a `log` event still
appends the bounded log entry to `processingLogs` and advances the sequence
counter; `processingState` itself stays null and every other field is
unchanged. -/
theorem c1_log_before_start_appends (s : StoreState) (p : LogPayload)
    (now : Int) (h : s.processingState = none) :
    handleProcessingEvent (.log p now) s =
      { s with
        logSeq := s.logSeq + 1,
        processingLogs :=
          sliceLast MAX_PROCESSING_LOGS
            (s.processingLogs ++ [mkLogEntry s.logSeq p now]) } := by
  simp [handleProcessingEvent, h]

/-- C1 (witness): the amended statement evaluated on the fresh example
store. -/
theorem c1_log_before_start_appends_witness :
    exReview.processingState = none ∧
    handleProcessingEvent (.log ⟨"w", "info", some 4⟩ 7) exReview =
      { exReview with
        logSeq := exReview.logSeq + 1,
        processingLogs :=
          sliceLast MAX_PROCESSING_LOGS
            (exReview.processingLogs ++
              [mkLogEntry exReview.logSeq ⟨"w", "info", some 4⟩ 7]) } :=
  ⟨by decide,
    c1_log_before_start_appends exReview ⟨"w", "info", some 4⟩ 7 (by decide)⟩

/-- C9 (counterexample): in phase `uploading` (not `review`), invoking
`setSelectedTags` does change `selectedTags` — the claim that it is a no-op
outside `review` is false. -/
theorem c9_setSelectedTags_counterexample :
    exUploading.phase = .uploading ∧ exUploading.selectedTags = [] ∧
    (setSelectedTags ["x"] exUploading).selectedTags = ["x"] := by
  decide

/-- C9 (amended): `setSelectedTags` has no phase guard: in every phase it
replaces `selectedTags` with the given sequence and changes no other
field. -/
theorem c9_setSelectedTags_unguarded (s : StoreState) (tags : List String) :
    (setSelectedTags tags s).selectedTags = tags ∧
    (setSelectedTags tags s).phase = s.phase ∧
    (setSelectedTags tags s).files = s.files ∧
    (setSelectedTags tags s).totalSize = s.totalSize ∧
    (setSelectedTags tags s).uploadedBytes = s.uploadedBytes ∧
    (setSelectedTags tags s).availableTags = s.availableTags ∧
    (setSelectedTags tags s).unmatchedMovFiles = s.unmatchedMovFiles ∧
    (setSelectedTags tags s).hasMovFile = s.hasMovFile ∧
    (setSelectedTags tags s).uploadEntries = s.uploadEntries ∧
    (setSelectedTags tags s).uploadError = s.uploadError ∧
    (setSelectedTags tags s).processingError = s.processingError ∧
    (setSelectedTags tags s).processingState = s.processingState ∧
    (setSelectedTags tags s).processingLogs = s.processingLogs := by
  simp [setSelectedTags]

/-- C4 (counterexample): from the terminal phase `completed`, `beginUpload`
is not a no-op — its guard only checks `uploading`/`processing`, so it
restarts the upload and the phase becomes `uploading`. -/
theorem c4_beginUpload_from_completed_counterexample :
    exCompleted.phase = .completed ∧
    (beginUploadStart exCompleted).phase = .uploading := by
  decide

/-- C4 (amended): from `completed` or `error`, `removeEntry`,
`abortCurrent` and `setSelectedTags` never change the phase and `reset`
returns it to `review`; `beginUpload`, however, is not guarded against the
terminal phases: with no unmatched companion files and a non-empty file
list it restarts the upload (phase becomes `uploading`), and otherwise it
is a silent no-op. -/
theorem c4_terminal_phase_ops (s : StoreState) (idx : Nat)
    (tags : List String) (h : s.phase = .completed ∨ s.phase = .error) :
    (removeEntry idx s).phase = s.phase ∧
    (abortCurrent s).phase = s.phase ∧
    (setSelectedTags tags s).phase = s.phase ∧
    (reset s).phase = .review ∧
    (s.unmatchedMovFiles = [] → s.files ≠ [] →
      (beginUploadStart s).phase = .uploading) ∧
    (s.unmatchedMovFiles ≠ [] ∨ s.files = [] → beginUploadStart s = s) := by
  obtain h | h := h <;>
  refine ⟨?_, ?_, ?_, ?_, ?_, ?_⟩
  case' inl.refine_1 | inr.refine_1 => simp [removeEntry, h]
  case' inl.refine_2 | inr.refine_2 => simp [abortCurrent, h]
  case' inl.refine_3 | inr.refine_3 => simp [setSelectedTags, h]
  case' inl.refine_4 | inr.refine_4 => simp [reset, updateEntries]
  case' inl.refine_5 | inr.refine_5 =>
    intro h1 h2
    simp [beginUploadStart, h, h1, h2, updateEntries]
  case' inl.refine_6 | inr.refine_6 =>
    rintro (h1 | h1)
    · have hl : s.unmatchedMovFiles.length > 0 := List.length_pos.mpr h1
      simp [beginUploadStart, hl]
    · simp [beginUploadStart, h, h1]

/-- C4 (witness): the amended statement evaluated on the completed example
store. -/
theorem c4_terminal_phase_ops_witness :
    (exCompleted.phase = .completed ∨ exCompleted.phase = .error) ∧
    ((removeEntry 0 exCompleted).phase = exCompleted.phase ∧
     (abortCurrent exCompleted).phase = exCompleted.phase ∧
     (setSelectedTags ["x"] exCompleted).phase = exCompleted.phase ∧
     (reset exCompleted).phase = .review ∧
     (exCompleted.unmatchedMovFiles = [] → exCompleted.files ≠ [] →
       (beginUploadStart exCompleted).phase = .uploading) ∧
     (exCompleted.unmatchedMovFiles ≠ [] ∨ exCompleted.files = [] →
       beginUploadStart exCompleted = exCompleted)) :=
  ⟨by decide, c4_terminal_phase_ops exCompleted 0 ["x"] (by decide)⟩

/-- C2 (counterexample): a `done` entry with a matching index in the
snapshot does not keep its `progress`/`uploadedBytes` — the aggregator
overwrites both (here from progress 1, 10 bytes down to 0, 5 bytes), so the
claim that `processing`/`done`/`error` entries are left entirely unchanged
is false. -/
theorem c2_overwrites_done_counterexample :
    (exCompleted.uploadEntries.map fun e => (e.status, e.progress, e.uploadedBytes)) =
      [(.done, 1, 10), (.done, 1, 20), (.done, 1, 30)] ∧
    ((handleUploadProgress [⟨0, 0, 5⟩] exCompleted).uploadEntries.map
        fun e => (e.status, e.progress, e.uploadedBytes)) =
      [(.done, 0, 5), (.done, 1, 20), (.done, 1, 30)] := by
  decide

/-- C2 (amended): the aggregator updates `progress` and `uploadedBytes` of
every entry with a matching index in the snapshot regardless of its status,
promotes `status` from `pending` to `uploading` and leaves every other
status value as it was (so no status is ever demoted), and leaves entries
without a matching index entirely unchanged. -/
theorem c2_progress_aggregator (snapshot : List FileProgress) (s : StoreState) :
    (handleUploadProgress snapshot s).uploadEntries.length =
      s.uploadEntries.length ∧
    List.Forall₂ (fun e r =>
        r.index = e.index ∧ r.name = e.name ∧ r.size = e.size ∧
        r.progress = (mapGet snapshot e.index).elim e.progress (·.progress) ∧
        r.uploadedBytes =
          (mapGet snapshot e.index).elim e.uploadedBytes (·.uploadedBytes) ∧
        r.status = (mapGet snapshot e.index).elim e.status
          (fun _ => if e.status = .pending then .uploading else e.status) ∧
        (r.status = e.status ∨ (e.status = .pending ∧ r.status = .uploading)))
      s.uploadEntries (handleUploadProgress snapshot s).uploadEntries := by
  have hred : (handleUploadProgress snapshot s).uploadEntries =
      s.uploadEntries.map (fun entry =>
        match mapGet snapshot entry.index with
        | none => entry
        | some current =>
            { entry with
              status := if entry.status = .pending then .uploading else entry.status,
              progress := current.progress,
              uploadedBytes := current.uploadedBytes }) := by
    simp [handleUploadProgress, updateEntries]
  constructor
  · rw [hred, List.length_map]
  · rw [hred, List.forall₂_map_right_iff, List.forall₂_same]
    intro e he
    cases hm : mapGet snapshot e.index with
    | none => simp [hm]
    | some c =>
      by_cases hp : e.status = .pending <;> simp [hm, hp]

/-- C7: `abortCurrent` in phase `processing` yields phase `error` with the
fixed termination message, every `processing` entry transitioned to
`error`, every `done` entry untouched (indeed every non-`processing` status
is kept); in phase `review`, `completed` or `error` it leaves the state
unchanged. -/
theorem c7_abortCurrent_processing (s t : StoreState)
    (hs : s.phase = .processing)
    (ht : t.phase = .review ∨ t.phase = .completed ∨ t.phase = .error) :
    (abortCurrent s).phase = .error ∧
    (abortCurrent s).processingError = some ("服务器处理已终止") ∧
    List.Forall₂ (fun e r =>
        (e.status = .processing → r.status = .error) ∧
        (e.status = .done → r = e) ∧
        (e.status ≠ .processing → r.status = e.status))
      s.uploadEntries (abortCurrent s).uploadEntries ∧
    abortCurrent t = t := by
  have hred : abortCurrent s =
      updateEntries (fun entries => entries.map fun e =>
        { e with status := if e.status = .processing then .error else e.status })
        { s with processingError := some ("服务器处理已终止"), phase := .error } := by
    simp [abortCurrent, hs]
  refine ⟨?_, ?_, ?_, ?_⟩
  · rw [hred]; simp [updateEntries]
  · rw [hred]; simp [updateEntries]
  · rw [hred]
    have hent : (updateEntries (fun entries => entries.map fun e =>
        { e with status := if e.status = .processing then .error else e.status })
        { s with processingError := some ("服务器处理已终止"), phase := .error }).uploadEntries =
        s.uploadEntries.map (fun e =>
          { e with status := if e.status = .processing then .error else e.status }) := by
      simp [updateEntries]
    rw [hent, List.forall₂_map_right_iff, List.forall₂_same]
    intro e he
    refine ⟨?_, ?_, ?_⟩
    · intro hp; simp [hp]
    · intro hd
      obtain ⟨i, n, sz, st, pr, ub⟩ := e
      simp only at hd
      subst hd
      simp
    · intro hp; simp [hp]
  · rcases ht with ht | ht | ht <;> simp [abortCurrent, ht]

/-- C7 (witness): the statement evaluated on the processing example store
and the fresh review store. -/
theorem c7_abortCurrent_processing_witness :
    exProcessing.phase = .processing ∧
    (exReview.phase = .review ∨ exReview.phase = .completed ∨
      exReview.phase = .error) ∧
    ((abortCurrent exProcessing).phase = .error ∧
     (abortCurrent exProcessing).processingError = some ("服务器处理已终止") ∧
     List.Forall₂ (fun e r =>
        (e.status = .processing → r.status = .error) ∧
        (e.status = .done → r = e) ∧
        (e.status ≠ .processing → r.status = e.status))
       exProcessing.uploadEntries (abortCurrent exProcessing).uploadEntries ∧
     abortCurrent exReview = exReview) :=
  ⟨by decide, by decide,
    c7_abortCurrent_processing exProcessing exReview (by decide) (by decide)⟩

/-- C10: a `complete` event with `processingState` present forces
`progress = 1` and `uploadedBytes = size` on every entry, while only
`processing` entries change status (to `done`); entries in any other
status, `error` and `pending` included, keep their status yet still get
`progress = 1` and `uploadedBytes = size`. -/
theorem c10_complete_touches_all_entries (s : StoreState)
    (prev : ProcessingState) (summary : String)
    (h : s.processingState = some prev) :
    List.Forall₂ (fun e r =>
        r.progress = 1 ∧ r.uploadedBytes = e.size ∧
        (e.status = .processing → r.status = .done) ∧
        (e.status ≠ .processing → r.status = e.status) ∧
        r.index = e.index ∧ r.name = e.name ∧ r.size = e.size)
      s.uploadEntries
      ((handleProcessingEvent (.complete summary) s).uploadEntries) := by
  have hred : (handleProcessingEvent (.complete summary) s).uploadEntries =
      s.uploadEntries.map (fun e =>
        { e with
          status := if e.status = .processing then .done else e.status,
          progress := 1,
          uploadedBytes := e.size }) := by
    simp [handleProcessingEvent, h, updateEntries]
  rw [hred, List.forall₂_map_right_iff, List.forall₂_same]
  intro e he
  by_cases hp : e.status = .processing <;> simp [hp]

/-- C10 (witness): the statement evaluated on the errored example store,
whose entries are all in `error` status. -/
theorem c10_complete_touches_all_entries_witness :
    exErrored.processingState = some exErroredPs ∧
    List.Forall₂ (fun e r =>
        r.progress = 1 ∧ r.uploadedBytes = e.size ∧
        (e.status = .processing → r.status = .done) ∧
        (e.status ≠ .processing → r.status = e.status) ∧
        r.index = e.index ∧ r.name = e.name ∧ r.size = e.size)
      exErrored.uploadEntries
      ((handleProcessingEvent (.complete ("fin")) exErrored).uploadEntries) :=
  ⟨by decide,
    c10_complete_touches_all_entries exErrored exErroredPs ("fin") (by decide)⟩

/-- C8: `beginUpload` is a silent no-op whenever the unmatched-companion
set is non-empty, the phase is already `uploading`/`processing`, or the
file list is empty; and a selection containing a companion-video file with
no same-named image puts that file in the unmatched set of the created
store and blocks `beginUpload` there. -/
theorem c8_beginUpload_guard (s : StoreState) (files : List FFile)
    (tags : List String) (f : FFile)
    (hguard : s.unmatchedMovFiles ≠ [] ∨ s.phase = .uploading ∨
      s.phase = .processing ∨ s.files = [])
    (hf : f ∈ files) (hmov : isMovFile f = true)
    (hnoimg : ∀ g ∈ files, isMovFile g = false → g.name.base ≠ f.name.base) :
    beginUploadStart s = s ∧
    f ∈ (createPhotoUploadStore files tags).unmatchedMovFiles ∧
    beginUploadStart (createPhotoUploadStore files tags) =
      createPhotoUploadStore files tags := by
  have noop : ∀ u : StoreState,
      (u.unmatchedMovFiles ≠ [] ∨ u.phase = .uploading ∨
        u.phase = .processing ∨ u.files = []) → beginUploadStart u = u := by
    intro u hu
    unfold beginUploadStart
    by_cases h1 : u.unmatchedMovFiles.length > 0 ∨ u.phase = .uploading ∨
        u.phase = .processing
    · rw [if_pos h1]
    · rw [if_neg h1]
      have h2 : u.files.length = 0 := by
        rcases hu with h | h | h | h
        · exact absurd (Or.inl (List.length_pos.mpr h)) h1
        · exact absurd (Or.inr (Or.inl h)) h1
        · exact absurd (Or.inr (Or.inr h)) h1
        · simp [h]
      rw [if_pos h2]
  have hmem : f ∈ (createPhotoUploadStore files tags).unmatchedMovFiles := by
    show f ∈ (collectUnmatchedMovFiles files).1
    unfold collectUnmatchedMovFiles
    refine List.mem_filter.mpr ⟨List.mem_filter.mpr ⟨hf, hmov⟩, ?_⟩
    simp only [decide_eq_true_eq]
    rw [List.any_eq_true]
    rintro ⟨g, hg, hgp⟩
    simp only [decide_eq_true_eq] at hgp
    obtain ⟨hgm, hgb⟩ := hgp
    exact hnoimg g hg (by simpa using hgm) hgb
  refine ⟨noop s hguard, hmem, noop _ (Or.inl (List.ne_nil_of_mem hmem))⟩

/-- C8 (witness): the statement evaluated on the processing example store
and a one-element selection holding a lone companion video `v.mov`. -/
theorem c8_beginUpload_guard_witness :
    ((exProcessing.unmatchedMovFiles ≠ [] ∨ exProcessing.phase = .uploading ∨
        exProcessing.phase = .processing ∨ exProcessing.files = [])) ∧
    ((⟨⟨"v", "mov"⟩, 7⟩ : FFile) ∈ [(⟨⟨"v", "mov"⟩, 7⟩ : FFile)]) ∧
    (isMovFile ⟨⟨"v", "mov"⟩, 7⟩ = true) ∧
    (∀ g ∈ [(⟨⟨"v", "mov"⟩, 7⟩ : FFile)], isMovFile g = false →
      g.name.base ≠ (⟨"v", "mov"⟩ : FileName).base) ∧
    (beginUploadStart exProcessing = exProcessing ∧
     (⟨⟨"v", "mov"⟩, 7⟩ : FFile) ∈
       (createPhotoUploadStore [⟨⟨"v", "mov"⟩, 7⟩] []).unmatchedMovFiles ∧
     beginUploadStart (createPhotoUploadStore [⟨⟨"v", "mov"⟩, 7⟩] []) =
       createPhotoUploadStore [⟨⟨"v", "mov"⟩, 7⟩] []) :=
  ⟨by decide, by decide, by decide, by decide,
    c8_beginUpload_guard exProcessing [⟨⟨"v", "mov"⟩, 7⟩] [] ⟨⟨"v", "mov"⟩, 7⟩
      (by decide) (by decide) (by decide) (by decide)⟩

/-- C3: after a `stage` or `action` event on a state with `processingState`
present, the named stage satisfies `processed ≤ total`, and a normalized
total of 0 forces status `completed`. -/
theorem c3_stage_action_invariant (s : StoreState) (prev : ProcessingState)
    (p : StagePayload) (q : ActionPayload)
    (h : s.processingState = some prev) :
    (∃ ps st, (handleProcessingEvent (.stage p) s).processingState = some ps ∧
      getStage ps.stages p.stage = some st ∧
      st.processed ≤ st.total ∧ (st.total = 0 → st.status = .completed)) ∧
    (∃ ps st, (handleProcessingEvent (.action q) s).processingState = some ps ∧
      getStage ps.stages q.stage = some st ∧
      st.processed ≤ st.total ∧ (st.total = 0 → st.status = .completed)) := by
  constructor
  · refine ⟨{ prev with
        summary := p.summary,
        stages := setStage prev.stages p.stage
          { status := if p.status = "complete" ∨ normalizeStageCount p.total
                (((getStage prev.stages p.stage).map (·.total)).getD 0) = 0
              then .completed else .running,
            processed := min
              (normalizeStageCount p.processed
                (((getStage prev.stages p.stage).map (·.processed)).getD 0))
              (normalizeStageCount p.total
                (((getStage prev.stages p.stage).map (·.total)).getD 0)),
            total := normalizeStageCount p.total
              (((getStage prev.stages p.stage).map (·.total)).getD 0) } },
      _, ?_, getStage_setStage _ _ _, min_le_right _ _, ?_⟩
    · simp [handleProcessingEvent, h]
    · intro h0
      simp only at h0 ⊢
      simp [h0]
  · refine ⟨{ prev with
        summary := q.summary,
        stages := setStage prev.stages q.stage
          { status := if normalizeStageCount q.total
                (((getStage prev.stages q.stage).map (·.total)).getD 0) = 0
              then .completed else .running,
            processed := min
              (normalizeStageCount q.index
                (((getStage prev.stages q.stage).map (·.processed)).getD 0))
              (normalizeStageCount q.total
                (((getStage prev.stages q.stage).map (·.total)).getD 0)),
            total := normalizeStageCount q.total
              (((getStage prev.stages q.stage).map (·.total)).getD 0) } },
      _, ?_, getStage_setStage _ _ _, min_le_right _ _, ?_⟩
    · simp [handleProcessingEvent, h]
    · intro h0
      simp only at h0 ⊢
      simp [h0]

/-- C3 (witness): the statement evaluated on the processing example store
with one concrete `stage` and one concrete `action` payload. -/
theorem c3_stage_action_invariant_witness :
    exProcessing.processingState = some exProcessingPs ∧
    ((∃ ps st, (handleProcessingEvent
          (.stage ⟨"metadata", "running", some 2, some 3, "sum"⟩)
          exProcessing).processingState = some ps ∧
       getStage ps.stages ("metadata") = some st ∧
       st.processed ≤ st.total ∧ (st.total = 0 → st.status = .completed)) ∧
     (∃ ps st, (handleProcessingEvent
          (.action ⟨"metadata", some 1, some 3, "sum"⟩)
          exProcessing).processingState = some ps ∧
       getStage ps.stages ("metadata") = some st ∧
       st.processed ≤ st.total ∧ (st.total = 0 → st.status = .completed))) :=
  ⟨by decide,
    c3_stage_action_invariant exProcessing exProcessingPs
      ⟨"metadata", "running", some 2, some 3, "sum"⟩
      ⟨"metadata", some 1, some 3, "sum"⟩ (by decide)⟩

theorem generatedLogs_length (seq : Nat) (L : List (LogPayload × Int)) :
    (generatedLogs seq L).length = L.length := by
  induction L generalizing seq with
  | nil => simp [generatedLogs]
  | cons pr rest ih => simp [generatedLogs, ih]

theorem foldLogs_inv (L : List (LogPayload × Int)) : ∀ s : StoreState,
    s.processingLogs.length ≤ MAX_PROCESSING_LOGS →
    (foldLogs L s).processingLogs =
      sliceLast MAX_PROCESSING_LOGS
        (s.processingLogs ++ generatedLogs s.logSeq L) := by
  induction L with
  | nil =>
    intro s h
    simp only [foldLogs, List.foldl_nil, generatedLogs, List.append_nil]
    exact (sliceLast_of_le _ _ h).symm
  | cons pr rest ih =>
    intro s h
    have hstep : foldLogs (pr :: rest) s =
        foldLogs rest (handleProcessingEvent (.log pr.1 pr.2) s) := by
      simp [foldLogs]
    have h1 : (handleProcessingEvent (.log pr.1 pr.2) s).processingLogs =
        sliceLast MAX_PROCESSING_LOGS
          (s.processingLogs ++ [mkLogEntry s.logSeq pr.1 pr.2]) := by
      simp [handleProcessingEvent]
    have h2 : (handleProcessingEvent (.log pr.1 pr.2) s).logSeq =
        s.logSeq + 1 := by
      simp [handleProcessingEvent]
    have h3 : (handleProcessingEvent (.log pr.1 pr.2) s).processingLogs.length ≤
        MAX_PROCESSING_LOGS := by
      rw [h1, length_sliceLast]
      omega
    rw [hstep, ih _ h3, h1, h2, sliceLast_append_left, List.append_assoc]
    rfl

/-- C5: for every sequence of `log` events delivered after a `start` event,
`processingLogs` is exactly the suffix of the generated entries bounded at
`MAX_PROCESSING_LOGS` (200): it never exceeds 200 entries, it holds exactly
the most recent `min 200 n` of the `n` delivered entries in arrival order,
and the oldest entries are the ones evicted. -/
theorem c5_logs_bounded (p : StartPayload) (s : StoreState)
    (L : List (LogPayload × Int)) :
    (foldLogs L (handleProcessingEvent (.start p) s)).processingLogs =
      sliceLast MAX_PROCESSING_LOGS (generatedLogs s.logSeq L) ∧
    (foldLogs L (handleProcessingEvent (.start p) s)).processingLogs.length ≤
      MAX_PROCESSING_LOGS ∧
    (foldLogs L (handleProcessingEvent (.start p) s)).processingLogs.length =
      min MAX_PROCESSING_LOGS L.length ∧
    (foldLogs L (handleProcessingEvent (.start p) s)).processingLogs <:+
      generatedLogs s.logSeq L := by
  have hlogs : (handleProcessingEvent (.start p) s).processingLogs = [] := by
    simp [handleProcessingEvent, updateEntries]
  have hseq : (handleProcessingEvent (.start p) s).logSeq = s.logSeq := by
    simp [handleProcessingEvent, updateEntries]
  have hmain := foldLogs_inv L (handleProcessingEvent (.start p) s)
    (by rw [hlogs]; simp)
  rw [hlogs, hseq, List.nil_append] at hmain
  refine ⟨hmain, ?_, ?_, ?_⟩
  · rw [hmain, length_sliceLast]
    omega
  · rw [hmain, length_sliceLast, generatedLogs_length]
  · rw [hmain, sliceLast]
    exact List.drop_suffix _ _

theorem invBytes_updateEntries
    (f : List FileProgressEntry → List FileProgressEntry) (s : StoreState) :
    invBytes (updateEntries f s) := by
  simp [invBytes, updateEntries, computeUploadedBytes, calculateUploadedBytes]

theorem invBytes_init (files : List FFile) (tags : List String) :
    invBytes (createPhotoUploadStore files tags) := by
  simp only [invBytes, createPhotoUploadStore, createFileEntries, List.map_map]
  refine (List.sum_eq_zero ?_).symm
  intro x hx
  simp only [List.mem_map] at hx
  obtain ⟨a, ha, hax⟩ := hx
  simp [← hax, Function.comp]

theorem invBytes_step (a : Action) (s : StoreState) (h : invBytes s) :
    invBytes (applyAction a s) := by
  cases a with
  | serverEvent e =>
    cases e with
    | start p =>
      simp [applyAction, handleProcessingEvent, invBytes, updateEntries,
        computeUploadedBytes, calculateUploadedBytes]
    | log p now =>
      simpa [applyAction, invBytes, handleProcessingEvent] using h
    | stage p =>
      cases hps : s.processingState with
      | none => simpa [applyAction, invBytes, handleProcessingEvent, hps] using h
      | some prev => simpa [applyAction, invBytes, handleProcessingEvent, hps] using h
    | action p =>
      cases hps : s.processingState with
      | none => simpa [applyAction, invBytes, handleProcessingEvent, hps] using h
      | some prev => simpa [applyAction, invBytes, handleProcessingEvent, hps] using h
    | error m =>
      cases hps : s.processingState with
      | none => simpa [applyAction, invBytes, handleProcessingEvent, hps] using h
      | some prev =>
        simp [applyAction, invBytes, handleProcessingEvent, hps, updateEntries,
          computeUploadedBytes, calculateUploadedBytes]
    | complete m =>
      cases hps : s.processingState with
      | none => simpa [applyAction, invBytes, handleProcessingEvent, hps] using h
      | some prev =>
        simp [applyAction, invBytes, handleProcessingEvent, hps, updateEntries,
          computeUploadedBytes, calculateUploadedBytes]
  | uploadProgress snap =>
    simp [applyAction, handleUploadProgress, invBytes, updateEntries,
      computeUploadedBytes, calculateUploadedBytes]
  | removeEntry i =>
    simp only [applyAction, removeEntry]
    split
    · exact h
    · split
      · exact h
      · simp [invBytes, computeUploadedBytes, calculateUploadedBytes]
  | beginUploadStart =>
    simp only [applyAction, beginUploadStart]
    split
    · exact h
    · split
      · exact h
      · simp [invBytes, updateEntries, computeUploadedBytes,
          calculateUploadedBytes]
  | uploadAborted =>
    simp [applyAction, uploadAborted, invBytes, updateEntries,
      computeUploadedBytes, calculateUploadedBytes]
  | uploadFailed m =>
    simp [applyAction, uploadFailed, invBytes, updateEntries,
      computeUploadedBytes, calculateUploadedBytes]
  | abortCurrent =>
    simp only [applyAction, abortCurrent]
    split
    · simp [invBytes, updateEntries, computeUploadedBytes,
        calculateUploadedBytes]
    · split
      · simp [invBytes, updateEntries, computeUploadedBytes,
          calculateUploadedBytes]
      · exact h
  | reset =>
    simp [applyAction, reset, invBytes, updateEntries, computeUploadedBytes,
      calculateUploadedBytes]
  | setSelectedTags t =>
    simpa [applyAction, setSelectedTags, invBytes] using h

theorem invBytes_applyActions (acts : List Action) : ∀ s : StoreState,
    invBytes s → invBytes (applyActions acts s) := by
  induction acts with
  | nil =>
    intro s h
    simpa [applyActions] using h
  | cons a rest ih =>
    intro s h
    have hstep : applyActions (a :: rest) s =
        applyActions rest (applyAction a s) := by
      simp [applyActions]
    rw [hstep]
    exact ih _ (invBytes_step a s h)

/-- C6: in every state reachable from a freshly created store by any
sequence of server events, upload-progress snapshots and exposed
operations, the aggregate `uploadedBytes` equals the sum of
`uploadedBytes` over all entries in `uploadEntries`. -/
theorem c6_uploadedBytes_recomputed (files : List FFile)
    (tags : List String) (acts : List Action) :
    (applyActions acts (createPhotoUploadStore files tags)).uploadedBytes =
      ((applyActions acts (createPhotoUploadStore files tags)).uploadEntries.map
        (·.uploadedBytes)).sum :=
  invBytes_applyActions acts _ (invBytes_init files tags)

end Afilmory
